import Mathlib

/-!
Shallow embedding of the serde deserialization derivation engine
(`src/serde_codegen/src/de.rs`) and of the runtime behaviour of the code it
generates.  The generator itself produces token streams; the algorithms those
tokens implement (tag decoding, keyed/positional value assembly, the
missing-value policy, bound synthesis, shape dispatch) are embedded here as
executable Lean functions over an abstract schema and an abstract wire value
type `V`.
-/

namespace SerdeDe

/-- Default policy of a field: `attr::FieldDefault` from the attribute model.
`default` is the bare `#[serde(default)]`, `path` is `#[serde(default = "p")]`,
`none` is no default attribute. -/
inductive FieldDefault where
  | default : FieldDefault
  | path : String → FieldDefault
  | none : FieldDefault
deriving DecidableEq, Repr

/-- A where-clause predicate: a constrained type together with the capability
bound required of it. -/
structure Pred where
  target : String
  bound : String
deriving DecidableEq, Repr

/-- Schema description of one field, carrying exactly the attribute queries the
generator in `de.rs` performs: `ident`, `attrs.name().deserialize_name()`,
`attrs.skip_deserializing()`, `attrs.deserialize_with()`, `attrs.default()`,
`attrs.de_bound()`, and the field's declared type. -/
structure Field where
  ident : String
  wireName : String
  ty : String
  skipDeserializing : Bool
  deserializeWith : Option String
  fieldDefault : FieldDefault
  deBound : Option (List Pred)
deriving DecidableEq, Repr

instance : Inhabited Field :=
  ⟨⟨"", "", "", false, Option.none, FieldDefault.none, Option.none⟩⟩

/-- Shape of a product type (`internals::ast::Style`). -/
inductive Style where
  | unit
  | newtype
  | tuple
  | structStyle
deriving DecidableEq, Repr

/-- Schema description of one enum variant. -/
structure Variant where
  ident : String
  wireName : String
  skipDeserializing : Bool
  style : Style
  fields : List Field
deriving DecidableEq, Repr

/-- Body of an item: a product type with a style, or an enum
(`internals::ast::Body`). -/
inductive Body where
  | structBody : Style → List Field → Body
  | enumBody : List Variant → Body
deriving DecidableEq, Repr

/-- Generic parameter list: parameters with optional default values, plus a
where clause of predicates. -/
structure Generics where
  params : List (String × Option String)
  wherePreds : List Pred
deriving DecidableEq, Repr

/-- Item-level attributes used by the generator: the deserialization name, the
deny-unknown-fields flag and the item-level bound override. -/
structure ItemAttrs where
  itemName : String
  denyUnknownFields : Bool
  deBound : Option (List Pred)
deriving DecidableEq, Repr

/-- One item (type description) handed to the derivation engine. -/
structure Item where
  ident : String
  generics : Generics
  attrs : ItemAttrs
  body : Body
deriving DecidableEq, Repr

/-- Error kinds of the deserialization protocol that the generated code can
raise (`_serde::de::Error` constructors used in `de.rs`), plus a custom kind
standing for errors produced by the external deserializer itself. -/
inductive DeError where
  | unknownVariant : String → DeError
  | unknownField : String → DeError
  | duplicateField : String → DeError
  | missingField : String → DeError
  | invalidLength : Nat → DeError
  | custom : String → DeError
deriving DecidableEq, Repr

/-- Internal tag of the generated `__Field` enumeration: one tag `field i` per
generated `__fieldN` constant, plus the catch-all `__ignore` tag. -/
inductive Tag where
  | field : Nat → Tag
  | ignore : Tag
deriving DecidableEq, Repr

/-- All wire names of a field list, in declaration order. -/
def wireNames (fields : List Field) : List String :=
  fields.map Field.wireName

/-- Participating (not skipped) fields, in declaration order. -/
def pFields (fields : List Field) : List Field :=
  fields.filter (fun f => !f.skipDeserializing)

/-- Number of slot-consuming (participating) fields. -/
def pCount (fields : List Field) : Nat :=
  (pFields fields).length

/-- Participating (not skipped) variants, in declaration order. -/
def pVariants (variants : List Variant) : List Variant :=
  variants.filter (fun v => !v.skipDeserializing)

/-- Arms of the generated `visit_str` of `__FieldVisitor`: the names are tried
in declaration order, arm `i` yielding `__fieldN` with `N = start + i`; an
unmatched string falls through to the policy-determined arm
(`deserialize_field_visitor` in de.rs). -/
def visitStrGo (names : List String) (start : Nat) (isVariant denyUnknown : Bool)
    (value : String) : Except DeError Tag :=
  match names with
  | [] =>
    if isVariant then Except.error (DeError.unknownVariant value)
    else if denyUnknown then Except.error (DeError.unknownField value)
    else Except.ok Tag.ignore
  | n :: rest =>
    if n = value then Except.ok (Tag.field start)
    else visitStrGo rest (start + 1) isVariant denyUnknown value

/-- Decoding of a wire-supplied string into a `__Field` tag, as generated by
`deserialize_field_visitor`. -/
def fieldVisitStr (names : List String) (isVariant denyUnknown : Bool)
    (value : String) : Except DeError Tag :=
  visitStrGo names 0 isVariant denyUnknown value

/-- Specification-side description of the tag decoding step, written from the
claim: first match in declaration order wins; no match is resolved purely by
the policy (variant sets always closed, deny-unknown errors, otherwise the
ignore tag). -/
def specTagDecode (names : List String) (isVariant denyUnknown : Bool)
    (value : String) : Except DeError Tag :=
  if value ∈ names then Except.ok (Tag.field (names.indexOf value))
  else if isVariant then Except.error (DeError.unknownVariant value)
  else if denyUnknown then Except.error (DeError.unknownField value)
  else Except.ok Tag.ignore

/-- Expression classes that `expr_is_missing` can emit for a field without a
wire value. -/
inductive MissingExpr where
  | typeDefault
  | callPath : String → MissingExpr
  | hardError : String → MissingExpr
  | visitorHook : String → MissingExpr
deriving DecidableEq, Repr

/-- Embedding of `expr_is_missing` from de.rs: the expression chosen for a
field that ended up without a wire value. -/
def expr_is_missing (f : Field) : MissingExpr :=
  match f.fieldDefault with
  | FieldDefault.default => MissingExpr.typeDefault
  | FieldDefault.path p => MissingExpr.callPath p
  | FieldDefault.none =>
    match f.deserializeWith with
    | Option.none => MissingExpr.visitorHook f.wireName
    | Option.some _ => MissingExpr.hardError f.wireName

/-- Specification-side missing-value policy, written from the claim's priority
list: (a) bare type default, (b) custom default function, (c) custom converter
forces a hard missing-field error, (d) the visitor's generic recovery hook. -/
def missingPolicySpec (f : Field) : MissingExpr :=
  match f.fieldDefault with
  | FieldDefault.default => MissingExpr.typeDefault
  | FieldDefault.path p => MissingExpr.callPath p
  | FieldDefault.none =>
    if (f.deserializeWith).isSome then MissingExpr.hardError f.wireName
    else MissingExpr.visitorHook f.wireName

/-- Runtime environment the generated code is executed against: the external
pieces it calls into.  `typeDefaultVal` is `Default::default()` at the field's
type, `pathCall` evaluates a custom default function, `missingHook` is
`visitor.missing_field(name)`, `seqEnd` is `SeqVisitor::end` given the
elements remaining in the sequence, `mapEnd` is `MapVisitor::end` given the
entries remaining in the map. -/
structure RunEnv (V : Type) where
  typeDefaultVal : Field → V
  pathCall : String → V
  missingHook : String → Except DeError V
  seqEnd : List V → Except DeError Unit
  mapEnd : List (String × V) → Except DeError Unit

/-- Runtime evaluation of a missing-value expression. -/
def evalMissingExpr {V : Type} (env : RunEnv V) (f : Field) :
    MissingExpr → Except DeError V
  | MissingExpr.typeDefault => Except.ok (env.typeDefaultVal f)
  | MissingExpr.callPath p => Except.ok (env.pathCall p)
  | MissingExpr.hardError n => Except.error (DeError.missingField n)
  | MissingExpr.visitorHook n => env.missingHook n

/-- Runtime value of the expression emitted by `expr_is_missing`. -/
def evalMissing {V : Type} (env : RunEnv V) (f : Field) : Except DeError V :=
  evalMissingExpr env f (expr_is_missing f)

/-- Runtime behaviour of the `let __fieldN = ...` chain generated by
`deserialize_seq`: the fields are processed in declaration order; a skipped
field is filled by its missing-value expression without touching the input; a
participating field takes the next positional slot, and if the sequence has
ended the generated code first calls `visitor.end()` and then returns an
invalid-length error carrying the zero-based count `idx` of slots consumed so
far.  Returns the values bound so far together with the unread input. -/
def seqStep {V : Type} (env : RunEnv V) :
    List Field → List V → Nat → Except DeError (List V × List V)
  | [], input, _ => Except.ok ([], input)
  | f :: fs, input, idx =>
    if f.skipDeserializing then
      match evalMissing env f with
      | Except.error e => Except.error e
      | Except.ok v =>
        match seqStep env fs input idx with
        | Except.error e => Except.error e
        | Except.ok (vs, rest) => Except.ok (v :: vs, rest)
    else
      match input with
      | [] =>
        match env.seqEnd [] with
        | Except.error e => Except.error e
        | Except.ok _ => Except.error (DeError.invalidLength idx)
      | v :: rest =>
        match seqStep env fs rest (idx + 1) with
        | Except.error e => Except.error e
        | Except.ok (vs, rest2) => Except.ok (v :: vs, rest2)

/-- Runtime behaviour of the whole generated `visit_seq` body
(`deserialize_seq`): bind every field, close the sequence, construct the value
(represented as the list of field values in declaration order). -/
def visitSeq {V : Type} (env : RunEnv V) (fields : List Field) (input : List V) :
    Except DeError (List V) :=
  match seqStep env fields input 0 with
  | Except.error e => Except.error e
  | Except.ok (vs, rest) =>
    match env.seqEnd rest with
    | Except.error e => Except.error e
    | Except.ok _ => Except.ok vs

/-- Specification-side positional assignment: participating fields take the
input slots in declaration order, skipped fields take their resolved default
`w`. -/
def seqAssign {V : Type} (w : Field → V) : List Field → List V → List V
  | [], _ => []
  | f :: fs, input =>
    if f.skipDeserializing then w f :: seqAssign w fs input
    else
      match input with
      | [] => []
      | v :: rest => v :: seqAssign w fs rest

/-- Runtime behaviour of the `while let Some(key) = try!(visitor.visit_key())`
loop generated by `deserialize_map`: each key is decoded through the tag set
built over all declared field names; a recognized participating tag checks its
slot for a duplicate and stores the value; a recognized skipped tag and the
catch-all tag consume and discard the value.  `slots` has one entry per
declared field (the slots of skipped fields are never written). -/
def mapLoop {V : Type} (env : RunEnv V) (fields : List Field) (deny : Bool) :
    List (Option V) → List (String × V) → Except DeError (List (Option V))
  | slots, [] => Except.ok slots
  | slots, (k, v) :: rest =>
    match fieldVisitStr (wireNames fields) false deny k with
    | Except.error e => Except.error e
    | Except.ok Tag.ignore => mapLoop env fields deny slots rest
    | Except.ok (Tag.field i) =>
      if (fields.getD i default).skipDeserializing then
        mapLoop env fields deny slots rest
      else if (slots.getD i Option.none).isSome then
        Except.error (DeError.duplicateField (fields.getD i default).wireName)
      else
        mapLoop env fields deny (slots.set i (Option.some v)) rest

/-- Runtime behaviour of the `extract_values` block of `deserialize_map`: for
every participating field, in declaration order, an empty slot is resolved by
the missing-value expression; skipped fields are left unresolved here (they
are resolved inside the final construction). -/
def extractValues {V : Type} (env : RunEnv V) :
    List (Field × Option V) → Except DeError (List (Field × Option V))
  | [] => Except.ok []
  | (f, s) :: rest =>
    if f.skipDeserializing then
      match extractValues env rest with
      | Except.error e => Except.error e
      | Except.ok tl => Except.ok ((f, Option.none) :: tl)
    else
      match s with
      | Option.some v =>
        match extractValues env rest with
        | Except.error e => Except.error e
        | Except.ok tl => Except.ok ((f, Option.some v) :: tl)
      | Option.none =>
        match evalMissing env f with
        | Except.error e => Except.error e
        | Except.ok v =>
          match extractValues env rest with
          | Except.error e => Except.error e
          | Except.ok tl => Except.ok ((f, Option.some v) :: tl)

/-- Runtime behaviour of the final struct construction of `deserialize_map`:
fields are written in declaration order, an extracted field contributes its
value, a skipped field evaluates its missing-value expression in place. -/
def constructValues {V : Type} (env : RunEnv V) :
    List (Field × Option V) → Except DeError (List V)
  | [] => Except.ok []
  | (f, s) :: rest =>
    match s with
    | Option.some v =>
      match constructValues env rest with
      | Except.error e => Except.error e
      | Except.ok tl => Except.ok (v :: tl)
    | Option.none =>
      match evalMissing env f with
      | Except.error e => Except.error e
      | Except.ok v =>
        match constructValues env rest with
        | Except.error e => Except.error e
        | Except.ok tl => Except.ok (v :: tl)

/-- Runtime behaviour of the whole generated `visit_map` body
(`deserialize_map`).  The special case of an empty field set under
deny-unknown-fields mirrors the generated short-circuit: one key is read and
decoded through the (empty, closed) tag set — so a present key always fails as
an unknown field — then the map is closed and the empty value is built.  The
general path runs the key/value loop, closes the map, extracts the
participating slots and constructs the value. -/
def visitMap {V : Type} (env : RunEnv V) (fields : List Field) (deny : Bool)
    (entries : List (String × V)) : Except DeError (List V) :=
  if fields.isEmpty && deny then
    match entries with
    | (k, _) :: rest =>
      match fieldVisitStr (wireNames fields) false deny k with
      | Except.error e => Except.error e
      | Except.ok _ =>
        match env.mapEnd rest with
        | Except.error e => Except.error e
        | Except.ok _ => Except.ok []
    | [] =>
      match env.mapEnd [] with
      | Except.error e => Except.error e
      | Except.ok _ => Except.ok []
  else
    match mapLoop env fields deny (List.replicate fields.length Option.none) entries with
    | Except.error e => Except.error e
    | Except.ok slots =>
      match env.mapEnd [] with
      | Except.error e => Except.error e
      | Except.ok _ =>
        match extractValues env (fields.zip slots) with
        | Except.error e => Except.error e
        | Except.ok ex => constructValues env ex

/-- All fields of a body (`Body::all_fields`). -/
def allFields (b : Body) : List Field :=
  match b with
  | Body.structBody _ fs => fs
  | Body.enumBody vs => (vs.map Variant.fields).flatten

/-- Embedding of `needs_deserialize_bound` from de.rs: fields with
`skip_deserializing` or `deserialize_with` are not deserialized by the engine,
and fields with their own `bound` attribute opt out of inference. -/
def needs_deserialize_bound (f : Field) : Bool :=
  !f.skipDeserializing && f.deserializeWith.isNone && f.deBound.isNone

/-- Embedding of `requires_default` from de.rs: exactly the fields whose
default policy is the bare `default` attribute. -/
def requires_default (f : Field) : Bool :=
  match f.fieldDefault with
  | FieldDefault.default => true
  | _ => false

/-- Path of the deserialize capability used for inferred bounds. -/
def deserializePath : String := "_serde::de::Deserialize"

/-- Path of the default capability used for inferred bounds. -/
def defaultPath : String := "::std::default::Default"

/-- Modelled from the spec: `bound::without_defaults` (the `bound` module is
not part of the sources under review) — strip any default values from the
original generic parameters, since defaults are invalid in an implementation
header. -/
def without_defaults (g : Generics) : Generics :=
  { g with params := g.params.map (fun p => (p.1, Option.none)) }

/-- Modelled from the spec: `bound::with_where_predicates` — append an
explicit predicate list to the where clause. -/
def with_where_predicates (g : Generics) (preds : List Pred) : Generics :=
  { g with wherePreds := g.wherePreds ++ preds }

/-- Per-field bound-override predicates of an item, in declaration order. -/
def fieldOverridePreds (item : Item) : List Pred :=
  ((allFields item.body).map (fun f => (f.deBound).getD [])).flatten

/-- Modelled from the spec: `bound::with_where_predicates_from_fields` —
append every field's own bound-override predicates to the where clause. -/
def with_where_predicates_from_fields (item : Item) (g : Generics) : Generics :=
  { g with wherePreds := g.wherePreds ++ fieldOverridePreds item }

/-- Modelled from the spec: `bound::with_bound` — for each field selected by
the filter, require the capability bound on the field's declared type (the
spec speaks of the type's outermost generic parameters; the constrained type
is kept whole here, which preserves exactly which fields contribute). -/
def with_bound (item : Item) (g : Generics) (filter : Field → Bool)
    (bound : String) : Generics :=
  { g with wherePreds :=
      g.wherePreds ++ ((allFields item.body).filter filter).map (fun f => ⟨f.ty, bound⟩) }

/-- Embedding of `build_impl_generics` from de.rs: strip parameter defaults,
add per-field bound overrides, then either take the item-level override
verbatim or infer deserialize/default capability bounds. -/
def build_impl_generics (item : Item) : Generics :=
  let g := without_defaults item.generics
  let g := with_where_predicates_from_fields item g
  match item.attrs.deBound with
  | Option.some preds => with_where_predicates g preds
  | Option.none =>
    let g := with_bound item g needs_deserialize_bound deserializePath
    with_bound item g requires_default defaultPath

/-- Participation plan of a field (spec §3). -/
inductive Plan where
  | skipWithDefault
  | skipWithError
  | normal
  | customConverter
deriving DecidableEq, Repr

/-- Classification of a field into the spec's participation plan. -/
def planOf (f : Field) : Plan :=
  if f.skipDeserializing then
    match f.fieldDefault with
    | FieldDefault.none => Plan.skipWithError
    | _ => Plan.skipWithDefault
  else if (f.deserializeWith).isSome then Plan.customConverter
  else Plan.normal

/-- The tag enumeration built by `deserialize_field_visitor`: one `__fieldN`
tag per supplied name, plus the catch-all `__ignore` tag exactly when the set
is not a variant set and unknown fields are not denied. -/
structure TagEnum where
  tags : List String
  hasIgnore : Bool
deriving DecidableEq, Repr

/-- Construction of the `__Field` enumeration in `deserialize_field_visitor`. -/
def mkFieldVisitorEnum (names : List String) (isVariant denyUnknown : Bool) : TagEnum :=
  { tags := names, hasIgnore := !isVariant && !denyUnknown }

/-- Tag enumeration built for a struct's fields by `deserialize_struct_visitor`:
the names passed are the wire names of all declared fields, with no skip
filter. -/
def structTagEnum (fields : List Field) (deny : Bool) : TagEnum :=
  mkFieldVisitorEnum (wireNames fields) false deny

/-- Tag enumeration built for an enum's variants by `deserialize_item_enum`:
skipped variants are filtered out before the names are collected. -/
def enumTagEnum (variants : List Variant) (deny : Bool) : TagEnum :=
  mkFieldVisitorEnum ((pVariants variants).map Variant.wireName) true deny

/-- Runtime behaviour of the generated `visit_enum` body
(`deserialize_item_enum`): the variant tag is decoded through the closed
variant tag set; a decoded tag `i` dispatches to the body of the `i`-th
participating variant.  The ignore arm is unreachable (a variant tag set never
contains the ignore tag; see `variant_decode_never_ignore`). -/
def visitItemEnum {R : Type} (variants : List Variant) (deny : Bool)
    (tagStr : String) (runVariant : Nat → Except DeError R) : Except DeError R :=
  match fieldVisitStr ((pVariants variants).map Variant.wireName) true deny tagStr with
  | Except.error e => Except.error e
  | Except.ok (Tag.field i) => runVariant i
  | Except.ok Tag.ignore => Except.error (DeError.unknownVariant tagStr)

/-- Protocol entry points a generated `deserialize` body can dispatch
through. -/
inductive ProtocolEntry where
  | unitStructEntry : String → ProtocolEntry
  | newtypeStructEntry : String → ProtocolEntry
  | tupleStructEntry : String → Nat → ProtocolEntry
  | structEntry : String → ProtocolEntry
  | enumEntry : String → ProtocolEntry
  | variantTupleEntry : Nat → ProtocolEntry
  | variantStructEntry : ProtocolEntry
deriving DecidableEq, Repr

/-- Dispatch expression chosen by `deserialize_tuple`: inside an enum variant
it is `visitor.visit_tuple(nfields, ..)`; otherwise a single field goes
through `deserialize_newtype_struct` and any other arity through
`deserialize_tuple_struct` with the field count. -/
def tupleDispatch (isEnum : Bool) (typeName : String) (nfields : Nat) : ProtocolEntry :=
  if isEnum then ProtocolEntry.variantTupleEntry nfields
  else if nfields = 1 then ProtocolEntry.newtypeStructEntry typeName
  else ProtocolEntry.tupleStructEntry typeName nfields

/-- Whether `deserialize_tuple` additionally generates the
`visit_newtype_struct` fast path: exactly for a non-variant product with one
field. -/
def tupleHasNewtypeFastPath (isEnum : Bool) (nfields : Nat) : Bool :=
  !isEnum && nfields == 1

/-- Runtime behaviour of the generated `visit_newtype_struct` fast path
(`deserialize_newtype_struct`): the single decoded value is wrapped as the
product's one field. -/
def newtypeFastPath {V : Type} (v : V) : Except DeError (List V) :=
  Except.ok [v]

/-- Top-level shape dispatch of `deserialize_body` combined with the dispatch
expression of `deserialize_tuple` and `deserialize_struct`. -/
def bodyDispatch (itemName : String) (b : Body) : ProtocolEntry :=
  match b with
  | Body.structBody Style.unit _ => ProtocolEntry.unitStructEntry itemName
  | Body.structBody Style.newtype fs => tupleDispatch false itemName fs.length
  | Body.structBody Style.tuple fs => tupleDispatch false itemName fs.length
  | Body.structBody Style.structStyle _ => ProtocolEntry.structEntry itemName
  | Body.enumBody _ => ProtocolEntry.enumEntry itemName

/-! ## Helper lemmas -/

/-- The arm chain generated for `visit_str` computes the spec decode, with all
tag indices shifted by the start offset. -/
theorem visitStrGo_eq_spec (names : List String) (start : Nat)
    (isVariant denyUnknown : Bool) (value : String) :
    visitStrGo names start isVariant denyUnknown value =
      match specTagDecode names isVariant denyUnknown value with
      | Except.ok (Tag.field i) => Except.ok (Tag.field (start + i))
      | x => x := by
  induction names generalizing start with
  | nil => cases isVariant <;> cases denyUnknown <;> simp [visitStrGo, specTagDecode]
  | cons n rest ih =>
    by_cases h : n = value
    · subst h
      simp [visitStrGo, specTagDecode, List.indexOf_cons_self]
    · by_cases hm : value ∈ rest
      · have hmem : value ∈ n :: rest := List.mem_cons_of_mem _ hm
        have hidx : List.indexOf value (n :: rest) = (List.indexOf value rest) + 1 := by
          simpa [Nat.succ_eq_add_one] using List.indexOf_cons_ne (a := value) rest h
        simp only [visitStrGo, if_neg h, ih, specTagDecode, if_pos hm, if_pos hmem, hidx]
        congr 1
        congr 1
        omega
      · have hmem : value ∉ n :: rest := by
          intro hc
          rcases List.mem_cons.mp hc with hc | hc
          · exact h hc.symm
          · exact hm hc
        simp only [visitStrGo, if_neg h, ih, specTagDecode, if_neg hm, if_neg hmem]
        cases isVariant <;> cases denyUnknown <;> simp

/-- The generated tag decode agrees with the spec decode. -/
theorem fieldVisitStr_eq_spec (names : List String) (isVariant denyUnknown : Bool)
    (value : String) :
    fieldVisitStr names isVariant denyUnknown value =
      specTagDecode names isVariant denyUnknown value := by
  rw [fieldVisitStr, visitStrGo_eq_spec]
  cases hs : specTagDecode names isVariant denyUnknown value with
  | error e => rfl
  | ok t => cases t <;> simp

/-- A known wire name decodes to the tag of its first occurrence. -/
theorem fieldVisitStr_mem {names : List String} {value : String}
    (isVariant denyUnknown : Bool) (h : value ∈ names) :
    fieldVisitStr names isVariant denyUnknown value =
      Except.ok (Tag.field (names.indexOf value)) := by
  rw [fieldVisitStr_eq_spec, specTagDecode, if_pos h]

/-- A variant tag set never decodes to the ignore tag. -/
theorem variant_decode_never_ignore (names : List String) (denyUnknown : Bool)
    (value : String) :
    fieldVisitStr names true denyUnknown value ≠ Except.ok Tag.ignore := by
  rw [fieldVisitStr_eq_spec, specTagDecode]
  by_cases h : value ∈ names <;> simp [h]

/-! ## Concrete inputs used by witnesses and counterexamples -/

/-- A trivial runtime environment over `Nat` values: defaults are `0`, the
missing-field hook recovers with `0`, both close operations succeed. -/
def env0 : RunEnv Nat :=
  ⟨fun _ => 0, fun _ => 0, fun _ => Except.ok 0, fun _ => Except.ok (), fun _ => Except.ok ()⟩

/-- A field with a custom converter that also declares the bare default
policy. -/
def fDefConv : Field :=
  ⟨"a", "a", "T", false, Option.some "conv", FieldDefault.default, Option.none⟩

/-- A skipped field does not change the participating count. -/
theorem pCount_cons_skip {f : Field} (fs : List Field)
    (h : f.skipDeserializing = true) : pCount (f :: fs) = pCount fs := by
  simp [pCount, pFields, List.filter_cons, h]

/-- A participating field adds one to the participating count. -/
theorem pCount_cons_active {f : Field} (fs : List Field)
    (h : f.skipDeserializing = false) : pCount (f :: fs) = pCount fs + 1 := by
  simp [pCount, pFields, List.filter_cons, h]

/-- When the input runs out before the participating fields do, the binding
chain of `deserialize_seq` first closes the sequence and then reports an
invalid length equal to the number of slots consumed. -/
theorem seqStep_short {V : Type} (env : RunEnv V) (w : Field → V) :
    ∀ (fields : List Field) (input : List V) (idx : Nat),
      (∀ f ∈ fields, f.skipDeserializing = true → evalMissing env f = Except.ok (w f)) →
      input.length < pCount fields →
      seqStep env fields input idx =
        match env.seqEnd [] with
        | Except.error e => Except.error e
        | Except.ok _ => Except.error (DeError.invalidLength (idx + input.length))
  | [], input, idx => by
    intro _ hlen
    simp [pCount, pFields] at hlen
  | f :: fs, input, idx => by
    intro hskip hlen
    by_cases hsk : f.skipDeserializing = true
    · have hmiss := hskip f (List.mem_cons_self f fs) hsk
      have ih := seqStep_short env w fs input idx
        (fun g hg => hskip g (List.mem_cons_of_mem f hg))
        (by rwa [pCount_cons_skip fs hsk] at hlen)
      simp only [seqStep, if_pos hsk, hmiss, ih]
      cases env.seqEnd [] <;> simp
    · have hsk2 : f.skipDeserializing = false := by
        cases h : f.skipDeserializing
        · rfl
        · exact absurd h hsk
      cases input with
      | nil =>
        simp only [seqStep, if_neg hsk]
        cases env.seqEnd [] <;> simp
      | cons v rest =>
        have hlen2 : rest.length < pCount fs := by
          rw [pCount_cons_active fs hsk2] at hlen
          simpa using Nat.lt_of_succ_lt_succ hlen
        have ih := seqStep_short env w fs rest (idx + 1)
          (fun g hg => hskip g (List.mem_cons_of_mem f hg)) hlen2
        simp only [seqStep, if_neg hsk, ih]
        cases env.seqEnd [] <;> simp
        omega

/-- When the input supplies at least one slot per participating field, the
binding chain of `deserialize_seq` assigns slots to participating fields in
declaration order, resolves skipped fields without reading input, and leaves
exactly the unread suffix. -/
theorem seqStep_enough {V : Type} (env : RunEnv V) (w : Field → V) :
    ∀ (fields : List Field) (input : List V) (idx : Nat),
      (∀ f ∈ fields, f.skipDeserializing = true → evalMissing env f = Except.ok (w f)) →
      pCount fields ≤ input.length →
      seqStep env fields input idx =
        Except.ok (seqAssign w fields input, input.drop (pCount fields))
  | [], input, idx => by
    intro _ _
    simp [seqStep, seqAssign, pCount, pFields]
  | f :: fs, input, idx => by
    intro hskip hlen
    by_cases hsk : f.skipDeserializing = true
    · have hmiss := hskip f (List.mem_cons_self f fs) hsk
      have ih := seqStep_enough env w fs input idx
        (fun g hg => hskip g (List.mem_cons_of_mem f hg))
        (by rwa [pCount_cons_skip fs hsk] at hlen)
      simp only [seqStep, if_pos hsk, hmiss, ih, pCount_cons_skip fs hsk]
      simp [seqAssign, hsk]
    · have hsk2 : f.skipDeserializing = false := by
        cases h : f.skipDeserializing
        · rfl
        · exact absurd h hsk
      cases input with
      | nil =>
        rw [pCount_cons_active fs hsk2] at hlen
        simp at hlen
      | cons v rest =>
        have hlen2 : pCount fs ≤ rest.length := by
          rw [pCount_cons_active fs hsk2] at hlen
          simpa using Nat.le_of_succ_le_succ hlen
        have ih := seqStep_enough env w fs rest (idx + 1)
          (fun g hg => hskip g (List.mem_cons_of_mem f hg)) hlen2
        rw [seqStep, if_neg hsk, ih, pCount_cons_active fs hsk2]
        simp [seqAssign, hsk2, List.drop_succ_cons]

/-! ## Claims -/

/-- C2: a wire-supplied string is matched against the known wire names in
declaration order with the first match winning; an unmatched string is
resolved solely by the policy: always an unknown-variant error for a variant
tag set, an unknown-field error naming the string under deny-unknown-fields,
and the catch-all ignore tag otherwise. -/
theorem tag_decode_first_match_then_policy (names : List String)
    (isVariant denyUnknown : Bool) (value : String) :
    fieldVisitStr names isVariant denyUnknown value =
      specTagDecode names isVariant denyUnknown value :=
  fieldVisitStr_eq_spec names isVariant denyUnknown value

/-- C3: the missing-value expression follows the priority (a) bare type
default, (b) custom default function, (c) custom converter forces a hard
missing-field error, (d) the visitor's generic recovery hook; and a field
with any default policy (case a or b) can never produce a missing-field
error. -/
theorem missing_value_policy {V : Type} (env : RunEnv V) (f : Field) :
    expr_is_missing f = missingPolicySpec f ∧
      (f.fieldDefault ≠ FieldDefault.none →
        ∃ u, evalMissing env f = Except.ok u) := by
  constructor
  · cases hd : f.fieldDefault <;>
      cases hdw : f.deserializeWith <;>
        simp [expr_is_missing, missingPolicySpec, hd, hdw]
  · intro h
    cases hd : f.fieldDefault with
    | default => exact ⟨env.typeDefaultVal f, by simp [evalMissing, expr_is_missing, hd, evalMissingExpr]⟩
    | path p => exact ⟨env.pathCall p, by simp [evalMissing, expr_is_missing, hd, evalMissingExpr]⟩
    | none => exact absurd hd h

/-- Witness for C3 at a field combining a custom converter with the bare
default policy. -/
theorem missing_value_policy_witness :
    expr_is_missing fDefConv = missingPolicySpec fDefConv ∧
      ∃ u, evalMissing env0 fDefConv = Except.ok u :=
  ⟨(missing_value_policy env0 fDefConv).1,
    (missing_value_policy env0 fDefConv).2 (by decide)⟩

/-- C4: positional assembly reads participating fields in declaration order,
one slot each; if the sequence ends before enough slots arrived, it fails with
an invalid-length error carrying exactly the zero-based participating position
that was expected next (the number of slots already consumed); with enough
slots, skipped fields consume nothing and are filled by the missing-value
resolver while participating fields take the input slots in order. -/
theorem seq_assembly_length_error {V : Type} (env : RunEnv V) (w : Field → V)
    (fields : List Field) (input : List V)
    (hskip : ∀ f ∈ fields, f.skipDeserializing = true →
      evalMissing env f = Except.ok (w f)) :
    (env.seqEnd [] = Except.ok () → input.length < pCount fields →
      visitSeq env fields input = Except.error (DeError.invalidLength input.length)) ∧
    (pCount fields ≤ input.length →
      env.seqEnd (input.drop (pCount fields)) = Except.ok () →
      visitSeq env fields input = Except.ok (seqAssign w fields input)) := by
  constructor
  · intro hend hlen
    rw [visitSeq, seqStep_short env w fields input 0 hskip hlen, hend]
    simp
  · intro hlen hend
    rw [visitSeq, seqStep_enough env w fields input 0 hskip hlen]
    simp only [hend]

/-- Two participating fields with no annotations, used by the positional
witnesses. -/
def seqFields : List Field :=
  [⟨"x", "x", "Int", false, Option.none, FieldDefault.none, Option.none⟩,
   ⟨"y", "y", "Int", false, Option.none, FieldDefault.none, Option.none⟩]

/-- Constant resolver used where a witness needs one. -/
def wZero : Field → Nat := fun _ => 0

/-- Witness for C4: a two-field tuple given one positional value fails with an
invalid-length error at zero-based position 1. -/
theorem seq_assembly_length_error_witness :
    visitSeq env0 seqFields [5] = Except.error (DeError.invalidLength 1) :=
  (seq_assembly_length_error env0 wZero seqFields [5]
    (by intro f hf hs; fin_cases hf <;> exact absurd hs (by decide))).1 rfl (by decide)

/-- C10: when the sequence ends early at a participating field, the generated
code invokes the sequence close operation before returning, so the final
outcome is the close operation's error when it fails, and the invalid-length
error only when the close succeeds. -/
theorem seq_end_called_before_length_error {V : Type} (env : RunEnv V)
    (w : Field → V) (fields : List Field) (input : List V)
    (hskip : ∀ f ∈ fields, f.skipDeserializing = true →
      evalMissing env f = Except.ok (w f))
    (hlen : input.length < pCount fields) :
    visitSeq env fields input =
      match env.seqEnd [] with
      | Except.error e => Except.error e
      | Except.ok _ => Except.error (DeError.invalidLength input.length) := by
  rw [visitSeq, seqStep_short env w fields input 0 hskip hlen]
  cases env.seqEnd [] <;> simp

/-- Environment whose sequence close operation fails. -/
def envSeqBoom : RunEnv Nat :=
  ⟨fun _ => 0, fun _ => 0, fun _ => Except.ok 0,
   fun _ => Except.error (DeError.custom "boom"), fun _ => Except.ok ()⟩

/-- Witness for C10: with a failing close operation, the early-end path
reports the close error, not the invalid-length error. -/
theorem seq_end_called_before_length_error_witness :
    visitSeq envSeqBoom seqFields [5] = Except.error (DeError.custom "boom") :=
  seq_end_called_before_length_error envSeqBoom wZero seqFields [5]
    (by intro f hf hs; fin_cases hf <;> exact absurd hs (by decide)) (by decide)

/-- C7: for an empty field set under deny-unknown-fields, keyed assembly does
not succeed unconditionally: a present first key is decoded through the
closed, empty tag set and rejected as an unknown field naming it, and on empty
input the map close operation still runs before the empty value is built. -/
theorem empty_struct_strict_keyed {V : Type} (env : RunEnv V) :
    (∀ (k : String) (v : V) (rest : List (String × V)),
      visitMap env [] true ((k, v) :: rest) =
        Except.error (DeError.unknownField k)) ∧
    (visitMap env [] true [] =
      match env.mapEnd [] with
      | Except.error e => Except.error e
      | Except.ok _ => Except.ok []) := by
  constructor
  · intro k v rest
    rfl
  · rfl

/-- A skipped field carrying the bare default policy. -/
def fSkipDef : Field := ⟨"s", "a", "T", true, Option.none, FieldDefault.default, Option.none⟩

/-- Counterexample for C7: the generated short-circuit tests the declared
field set, not the participating one.  For a struct whose only declared field
is skipped, the participating field set is empty, yet under
deny-unknown-fields a present key carrying the skipped field's wire name is
not rejected: the skipped field still has a tag, its arm consumes and ignores
the value, and assembly succeeds with the defaulted construction — so the
claim's "any present key is decoded through the closed tag set and rejected
as an unknown field" fails on an empty participating (but nonempty declared)
field set. -/
theorem empty_participating_keyed_counterexample :
    pCount [fSkipDef] = 0 ∧
    visitMap env0 [fSkipDef] true [("a", 7)] = Except.ok [0] ∧
    visitMap env0 [fSkipDef] true [("a", 7)] ≠
      Except.error (DeError.unknownField "a") := by
  have h2 : visitMap env0 [fSkipDef] true [("a", 7)] = Except.ok [0] := rfl
  refine ⟨by decide, h2, ?_⟩
  rw [h2]
  intro hc
  exact Except.noConfusion hc

/-- A variant marked skip-deserializing, used by the empty-enum witness. -/
def vSkip : Variant := ⟨"V", "V", true, Style.unit, []⟩

/-- C8: an enum with zero participating variants (truly empty or all variants
skipped) has an empty variant tag set, and its generated dispatcher, whenever
invoked, deterministically fails with an unknown-variant error instead of
returning any constructed value. -/
theorem empty_enum_dispatch_fails {R : Type} (variants : List Variant)
    (deny : Bool) (s : String) (run : Nat → Except DeError R)
    (h : ∀ v ∈ variants, v.skipDeserializing = true) :
    pVariants variants = [] ∧
    visitItemEnum variants deny s run = Except.error (DeError.unknownVariant s) := by
  have hp : pVariants variants = [] := by
    rw [pVariants, List.filter_eq_nil_iff]
    intro v hv
    simp [h v hv]
  refine ⟨hp, ?_⟩
  simp [visitItemEnum, hp, fieldVisitStr, visitStrGo]

/-- Witness for C8 at an enum whose only variant is skipped. -/
theorem empty_enum_dispatch_fails_witness :
    pVariants [vSkip] = [] ∧
    visitItemEnum [vSkip] false "V" (fun _ => Except.ok (0 : Nat)) =
      Except.error (DeError.unknownVariant "V") :=
  empty_enum_dispatch_fails [vSkip] false "V" (fun _ => Except.ok 0) (by decide)

/-- C9: a non-variant product with exactly one field is dispatched through the
newtype-struct protocol entry and additionally gets the `visit_newtype_struct`
fast path, which wraps the single decoded value as the one field; any other
arity of an unnamed-field product is dispatched through the tuple-struct entry
carrying the field count (the size of the positional assembler). -/
theorem shape_dispatch_newtype_tuple {V : Type} (name : String)
    (fields : List Field) (v : V) :
    (fields.length = 1 →
      bodyDispatch name (Body.structBody Style.newtype fields) =
        ProtocolEntry.newtypeStructEntry name ∧
      tupleHasNewtypeFastPath false fields.length = true ∧
      newtypeFastPath v = Except.ok [v]) ∧
    (fields.length ≠ 1 →
      bodyDispatch name (Body.structBody Style.tuple fields) =
        ProtocolEntry.tupleStructEntry name fields.length ∧
      tupleHasNewtypeFastPath false fields.length = false) := by
  constructor
  · intro h1
    exact ⟨by simp [bodyDispatch, tupleDispatch, h1],
      by simp [tupleHasNewtypeFastPath, h1], rfl⟩
  · intro h1
    exact ⟨by simp [bodyDispatch, tupleDispatch, h1],
      by simp [tupleHasNewtypeFastPath, h1]⟩

/-- A single unnamed field, used by the newtype witness. -/
def newtypeFields : List Field :=
  [⟨"0", "0", "Int", false, Option.none, FieldDefault.none, Option.none⟩]

/-- Witness for C9 at a one-field newtype and a two-field tuple. -/
theorem shape_dispatch_newtype_tuple_witness :
    bodyDispatch "T" (Body.structBody Style.newtype newtypeFields) =
      ProtocolEntry.newtypeStructEntry "T" ∧
    bodyDispatch "T" (Body.structBody Style.tuple seqFields) =
      ProtocolEntry.tupleStructEntry "T" 2 :=
  ⟨((shape_dispatch_newtype_tuple "T" newtypeFields (0 : Nat)).1 rfl).1,
    ((shape_dispatch_newtype_tuple "T" seqFields (0 : Nat)).2 (by decide)).1⟩

/-- Counterexample for C6: the tag enumeration generated for a struct keeps
one tag per declared field, including skipped fields, so a struct whose only
field is skipped has one tag although it has zero participating fields —
refuting the claim that a skipped field gets no tag of its own. -/
theorem tag_per_field_counterexample :
    (structTagEnum [fSkipDef] false).tags.length = 1 ∧
    pCount [fSkipDef] = 0 ∧ (1 : Nat) ≠ 0 := by
  decide

/-- C6 (amended): a struct's tag enumeration has exactly one tag per declared
field — skipped fields included — while an enum's variant tag set has exactly
one tag per participating variant (skipped variants get none); the catch-all
ignore tag is present exactly when the policy is ignore-unknown and the set is
not a variant set. -/
theorem tag_enumeration_shape (fields : List Field) (variants : List Variant)
    (denyF denyV : Bool) :
    (structTagEnum fields denyF).tags = wireNames fields ∧
    (structTagEnum fields denyF).hasIgnore = !denyF ∧
    (enumTagEnum variants denyV).tags = (pVariants variants).map Variant.wireName ∧
    (enumTagEnum variants denyV).hasIgnore = false := by
  exact ⟨rfl, by simp [structTagEnum, mkFieldVisitorEnum], rfl,
    by simp [enumTagEnum, mkFieldVisitorEnum]⟩

/-- The plan test used by the claim for inferred deserialize bounds: a Normal
field with no per-field bound override. -/
def planNormalNoOverride (f : Field) : Bool :=
  if planOf f = Plan.normal then f.deBound.isNone else false

/-- The claim-side test for inferred default bounds: the bare use-type-default
policy. -/
def bareDefaultPolicy (f : Field) : Bool :=
  if f.fieldDefault = FieldDefault.default then true else false

/-- The source's deserialize-bound filter coincides with the plan-based
description. -/
theorem needs_deserialize_bound_eq_plan (f : Field) :
    needs_deserialize_bound f = planNormalNoOverride f := by
  cases hsk : f.skipDeserializing <;>
    cases hdw : f.deserializeWith <;>
      cases hd : f.fieldDefault <;>
        simp [needs_deserialize_bound, planNormalNoOverride, planOf, hsk, hdw, hd]

/-- The source's default-bound filter coincides with the bare-default test. -/
theorem requires_default_eq_bare (f : Field) :
    requires_default f = bareDefaultPolicy f := by
  cases hd : f.fieldDefault <;> simp [requires_default, bareDefaultPolicy, hd]

/-- An item with one generic parameter with a default value, and one field of
that parameter type that has both a custom converter and the bare default
policy. -/
def itemConv : Item :=
  ⟨"S", ⟨[("T", Option.some "u8")], []⟩, ⟨"S", false, Option.none⟩,
    Body.structBody Style.structStyle [fDefConv]⟩

/-- Counterexample for C5: a field with a custom converter still contributes a
default-capability bound when its default policy is the bare type default
(`requires_default` never looks at the converter), so the claim that
custom-converter fields contribute no bound fails on `itemConv`. -/
theorem bound_for_converter_field_counterexample :
    needs_deserialize_bound fDefConv = false ∧
    (build_impl_generics itemConv).params = [("T", Option.none)] ∧
    (build_impl_generics itemConv).wherePreds = [⟨"T", defaultPath⟩] ∧
    ([(⟨"T", defaultPath⟩ : Pred)] : List Pred) ≠ [] := by
  decide

/-- C5 (amended): the synthesized parameter list is the input generics with
parameter defaults stripped; per-field bound overrides are always appended;
under an item-level bound override those override predicates are appended and
no bound inference happens; otherwise every Normal-plan field without a
per-field override contributes a deserialize bound and every field whose
default policy is the bare type default — regardless of skip or converter
status — contributes a default bound. -/
theorem bound_synthesis_characterization (item : Item) :
    (build_impl_generics item).params =
      item.generics.params.map (fun p => (p.1, Option.none)) ∧
    (build_impl_generics item).wherePreds =
      (match item.attrs.deBound with
       | Option.some preds =>
         item.generics.wherePreds ++ fieldOverridePreds item ++ preds
       | Option.none =>
         item.generics.wherePreds ++ fieldOverridePreds item
           ++ ((allFields item.body).filter planNormalNoOverride).map
                (fun f => (⟨f.ty, deserializePath⟩ : Pred))
           ++ ((allFields item.body).filter bareDefaultPolicy).map
                (fun f => (⟨f.ty, defaultPath⟩ : Pred))) := by
  have hfilter1 : (allFields item.body).filter needs_deserialize_bound =
      (allFields item.body).filter planNormalNoOverride :=
    List.filter_congr (fun f _ => needs_deserialize_bound_eq_plan f)
  have hfilter2 : (allFields item.body).filter requires_default =
      (allFields item.body).filter bareDefaultPolicy :=
    List.filter_congr (fun f _ => requires_default_eq_bare f)
  cases hb : item.attrs.deBound with
  | some preds =>
    constructor
    · simp [build_impl_generics, hb, without_defaults,
        with_where_predicates_from_fields, with_where_predicates]
    · simp [build_impl_generics, hb, without_defaults,
        with_where_predicates_from_fields, with_where_predicates]
  | none =>
    constructor
    · simp [build_impl_generics, hb, without_defaults,
        with_where_predicates_from_fields, with_bound]
    · simp [build_impl_generics, hb, without_defaults,
        with_where_predicates_from_fields, with_bound, hfilter1, hfilter2,
        List.append_assoc]

/-! ## Keyed assembly characterization -/

/-- The slot updates performed by the keyed loop, collected as a fold: each
entry writes its value into the slot of the first field whose wire name
matches its key. -/
def applyEntries {V : Type} (names : List String) (slots : List (Option V))
    (entries : List (String × V)) : List (Option V) :=
  entries.foldl (fun s p => s.set (names.indexOf p.1) (Option.some p.2)) slots

/-- Writing the entries never changes the number of slots. -/
theorem applyEntries_length {V : Type} (names : List String) :
    ∀ (entries : List (String × V)) (slots : List (Option V)),
      (applyEntries names slots entries).length = slots.length
  | [], _ => rfl
  | (k, u) :: rest, slots => by
    have ih := applyEntries_length names rest (slots.set (names.indexOf k) (Option.some u))
    simp only [applyEntries] at ih ⊢
    simpa using ih

/-- A slot written by no entry keeps its initial content. -/
theorem applyEntries_not_mem {V : Type} (names : List String) :
    ∀ (entries : List (String × V)) (slots : List (Option V)) (j : Nat),
      (∀ p ∈ entries, names.indexOf p.1 ≠ j) →
      (applyEntries names slots entries)[j]? = slots[j]?
  | [], _, _ => by intro _; simp [applyEntries]
  | (k, u) :: rest, slots, j => by
    intro h
    have hne : names.indexOf k ≠ j := h (k, u) (List.mem_cons_self _ _)
    have ih := applyEntries_not_mem names rest
      (slots.set (names.indexOf k) (Option.some u)) j
      (fun p hp => h p (List.mem_cons_of_mem _ hp))
    simp only [applyEntries, List.foldl_cons] at ih ⊢
    rw [ih, List.getElem?_set_ne hne]

/-- A slot written by exactly one entry ends up holding that entry's value. -/
theorem applyEntries_mem {V : Type} (names : List String) :
    ∀ (entries : List (String × V)) (slots : List (Option V)) (j : Nat)
      (k : String) (u : V),
      (k, u) ∈ entries → names.indexOf k = j → j < slots.length →
      (entries.map (fun p => names.indexOf p.1)).Nodup →
      (applyEntries names slots entries)[j]? = some (Option.some u)
  | [], _, _, _, _ => by intro h; cases h
  | (k0, u0) :: rest, slots, j, k, u => by
    intro hmem hidx hj hnd
    have hnd2 : (names.indexOf k0 :: rest.map (fun p => names.indexOf p.1)).Nodup := by
      simpa using hnd
    rcases List.mem_cons.mp hmem with heq | hrest
    · have hk0 : k0 = k := congrArg Prod.fst heq.symm
      have hu0 : u0 = u := congrArg Prod.snd heq.symm
      subst hk0
      subst hu0
      have hnotin : ∀ p ∈ rest, names.indexOf p.1 ≠ j := by
        intro p hp hc
        have hhead : names.indexOf k0 ∉ rest.map (fun p => names.indexOf p.1) :=
          (List.nodup_cons.mp hnd2).1
        exact hhead (by
          rw [hidx]
          exact hc ▸ List.mem_map_of_mem (fun p => names.indexOf p.1) hp)
      simp only [applyEntries, List.foldl_cons]
      have hstep := applyEntries_not_mem names rest
        (slots.set (names.indexOf k0) (Option.some u0)) j hnotin
      simp only [applyEntries] at hstep
      rw [hstep, hidx, List.getElem?_set_self hj]
    · have hhead : names.indexOf k0 ∉ rest.map (fun p => names.indexOf p.1) :=
        (List.nodup_cons.mp hnd2).1
      have hne : names.indexOf k0 ≠ j := by
        intro hc
        exact hhead (by
          rw [hc, ← hidx]
          exact List.mem_map_of_mem (fun p => names.indexOf p.1) hrest)
      have ih := applyEntries_mem names rest
        (slots.set (names.indexOf k0) (Option.some u0)) j k u hrest hidx
        (by simpa using hj) (List.nodup_cons.mp hnd2).2
      simp only [applyEntries, List.foldl_cons] at ih ⊢
      exact ih

/-- In a duplicate-free list, the first occurrence of the element at position
`n` is position `n` itself. -/
theorem nodup_indexOf_getElem {names : List String} (hnd : names.Nodup)
    {n : Nat} (hn : n < names.length) : names.indexOf names[n] = n := by
  have hmem : names[n] ∈ names := List.getElem_mem hn
  have hlt : names.indexOf names[n] < names.length := List.indexOf_lt_length.mpr hmem
  have hval : names[names.indexOf names[n]] = names[n] := List.getElem_indexOf hlt
  have hinj := List.nodup_iff_injective_getElem.mp hnd
  have heq : (⟨names.indexOf names[n], hlt⟩ : Fin names.length) = ⟨n, hn⟩ := by
    apply hinj
    simp only []
    exact hval
  exact congrArg Fin.val heq

/-- A wire name of a participating field points, through the tag decode, at an
in-range declared field that is not skipped. -/
theorem key_target {fields : List Field} (hnd : (wireNames fields).Nodup)
    {k : String} (hk : k ∈ wireNames (pFields fields)) :
    k ∈ wireNames fields ∧
    (wireNames fields).indexOf k < fields.length ∧
    (fields.getD ((wireNames fields).indexOf k) default).skipDeserializing = false := by
  rcases List.mem_map.mp hk with ⟨f, hf, rfl⟩
  have hffields : f ∈ fields := List.mem_of_mem_filter hf
  have hfskip : f.skipDeserializing = false := by
    have hb := List.of_mem_filter hf
    simp only [Bool.not_eq_eq_eq_not, Bool.not_true] at hb
    exact hb
  have hkmem : f.wireName ∈ wireNames fields :=
    List.mem_map_of_mem Field.wireName hffields
  have hlenn : (wireNames fields).length = fields.length := List.length_map _ _
  have hidxn : (wireNames fields).indexOf f.wireName < (wireNames fields).length :=
    List.indexOf_lt_length.mpr hkmem
  have hidx : (wireNames fields).indexOf f.wireName < fields.length := hlenn ▸ hidxn
  refine ⟨hkmem, hidx, ?_⟩
  rcases List.mem_iff_getElem.mp hffields with ⟨j, hj, hfj⟩
  have hjn : j < (wireNames fields).length := hlenn ▸ hj
  have hnamesj : (wireNames fields)[j] = f.wireName := by
    simp [wireNames, List.getElem_map, hfj]
  have hidxj : (wireNames fields).indexOf f.wireName = j := by
    have := nodup_indexOf_getElem hnd hjn
    rwa [hnamesj] at this
  have hgetd : fields.getD ((wireNames fields).indexOf f.wireName) default = f := by
    rw [hidxj, List.getD_eq_getElem?_getD, List.getElem?_eq_getElem hj, hfj]
    rfl
  rw [hgetd]
  exact hfskip

/-- When every key names a participating field, keys are pairwise distinct,
and every targeted slot is still empty, the keyed loop stores every entry's
value in the matching slot and succeeds. -/
theorem mapLoop_resolves {V : Type} (env : RunEnv V) (fields : List Field)
    (deny : Bool) (hnd : (wireNames fields).Nodup) :
    ∀ (entries : List (String × V)) (slots : List (Option V)),
      slots.length = fields.length →
      (∀ p ∈ entries, p.1 ∈ wireNames (pFields fields)) →
      (entries.map Prod.fst).Nodup →
      (∀ p ∈ entries, slots[(wireNames fields).indexOf p.1]? = some Option.none) →
      mapLoop env fields deny slots entries =
        Except.ok (applyEntries (wireNames fields) slots entries)
  | [], slots => by
    intro _ _ _ _
    simp [mapLoop, applyEntries]
  | (k, u) :: rest, slots => by
    intro hlen hkeys hnodup hslots
    obtain ⟨hkmem, hidxlt, hskipf⟩ :=
      key_target hnd (hkeys (k, u) (List.mem_cons_self _ _))
    have hknodup2 : (k :: rest.map Prod.fst).Nodup := by simpa using hnodup
    have hkout : k ∉ rest.map Prod.fst := (List.nodup_cons.mp hknodup2).1
    have hslotk : (slots.getD ((wireNames fields).indexOf k) Option.none) = Option.none := by
      rw [List.getD_eq_getElem?_getD, hslots (k, u) (List.mem_cons_self _ _)]
      rfl
    have hih := mapLoop_resolves env fields deny hnd rest
      (slots.set ((wireNames fields).indexOf k) (Option.some u))
      (by simpa using hlen)
      (fun p hp => hkeys p (List.mem_cons_of_mem _ hp))
      (List.nodup_cons.mp hknodup2).2
      (fun p hp => by
        have hpk : p.1 ≠ k := by
          intro hc
          exact hkout (hc ▸ List.mem_map_of_mem Prod.fst hp)
        have hpmem : p.1 ∈ wireNames fields :=
          (key_target hnd (hkeys p (List.mem_cons_of_mem _ hp))).1
        have hne : (wireNames fields).indexOf k ≠ (wireNames fields).indexOf p.1 := by
          intro hc
          exact hpk ((List.indexOf_inj hpmem hkmem).mp hc.symm)
        rw [List.getElem?_set_ne hne]
        exact hslots p (List.mem_cons_of_mem _ hp))
    simp only [mapLoop]
    rw [fieldVisitStr_mem false deny hkmem]
    simp only [hskipf, hslotk, Option.isSome_none, Bool.false_eq_true, if_false]
    rw [hih]
    simp [applyEntries]

/-- Starting from all-empty slots, a set of entries whose keys are exactly the
participating wire names (in any order, with values given by `v` per key)
leaves exactly the participating slots filled with their supplied values. -/
theorem final_slots {V : Type} (fields : List Field) (v : String → V)
    (entries : List (String × V))
    (hnd : (wireNames fields).Nodup)
    (hkeys : (entries.map Prod.fst).Perm (wireNames (pFields fields)))
    (hvals : ∀ p ∈ entries, p.2 = v p.1) :
    applyEntries (wireNames fields) (List.replicate fields.length Option.none) entries =
      fields.map (fun f =>
        if f.skipDeserializing then (Option.none : Option V)
        else Option.some (v f.wireName)) := by
  have hidxnodup : (entries.map (fun p => (wireNames fields).indexOf p.1)).Nodup := by
    have hksub : ∀ p ∈ entries, p.1 ∈ wireNames (pFields fields) :=
      fun p hp => (hkeys.mem_iff).mp (List.mem_map_of_mem Prod.fst hp)
    have hknodup : (entries.map Prod.fst).Nodup := by
      have hpnodup : (wireNames (pFields fields)).Nodup :=
        ((List.filter_sublist fields).map Field.wireName).nodup hnd
      exact (hkeys.symm).nodup hpnodup
    have : entries.map (fun p => (wireNames fields).indexOf p.1) =
        (entries.map Prod.fst).map (fun k => (wireNames fields).indexOf k) := by
      simp [List.map_map, Function.comp]
    rw [this]
    refine List.Nodup.map_on ?_ hknodup
    intro x hx y hy hxy
    have hxm : x ∈ wireNames fields := by
      rcases List.mem_map.mp hx with ⟨p, hp, rfl⟩
      exact (key_target hnd (hksub p hp)).1
    have hym : y ∈ wireNames fields := by
      rcases List.mem_map.mp hy with ⟨p, hp, rfl⟩
      exact (key_target hnd (hksub p hp)).1
    exact (List.indexOf_inj hxm hym).mp hxy
  apply List.ext_getElem?
  intro n
  have hlhslen :
      (applyEntries (wireNames fields)
        (List.replicate fields.length Option.none) entries).length = fields.length := by
    rw [applyEntries_length]
    simp
  by_cases hn : n < fields.length
  · have hrhs : (fields.map (fun f =>
        if f.skipDeserializing then (Option.none : Option V)
        else Option.some (v f.wireName)))[n]? =
        some (if fields[n].skipDeserializing then (Option.none : Option V)
          else Option.some (v fields[n].wireName)) := by
      rw [List.getElem?_map, List.getElem?_eq_getElem hn]
      rfl
    by_cases hsk : fields[n].skipDeserializing = true
    · have hnotin : ∀ p ∈ entries, (wireNames fields).indexOf p.1 ≠ n := by
        intro p hp hc
        have hkt := key_target hnd ((hkeys.mem_iff).mp (List.mem_map_of_mem Prod.fst hp))
        have : (fields.getD ((wireNames fields).indexOf p.1) default) = fields[n] := by
          rw [hc, List.getD_eq_getElem?_getD, List.getElem?_eq_getElem hn]
          rfl
        rw [this] at hkt
        exact absurd hsk (by simp [hkt.2.2])
      rw [applyEntries_not_mem _ _ _ _ hnotin, hrhs]
      simp [List.getElem?_replicate_of_lt hn, hsk]
    · have hsk2 : fields[n].skipDeserializing = false := by
        cases h : fields[n].skipDeserializing
        · rfl
        · exact absurd h hsk
      have hnmem : fields[n].wireName ∈ wireNames (pFields fields) := by
        apply List.mem_map_of_mem Field.wireName
        rw [pFields, List.mem_filter]
        exact ⟨List.getElem_mem hn, by simp [hsk2]⟩
      have hkeymem : fields[n].wireName ∈ entries.map Prod.fst :=
        (hkeys.mem_iff).mpr hnmem
      rcases List.mem_map.mp hkeymem with ⟨p, hp, hpfst⟩
      have hpv : p.2 = v fields[n].wireName := by
        rw [hvals p hp, hpfst]
      have hidxp : (wireNames fields).indexOf p.1 = n := by
        rw [hpfst]
        have hnn : n < (wireNames fields).length := by
          simpa [wireNames] using hn
        have : (wireNames fields)[n] = fields[n].wireName := by
          simp [wireNames]
        rw [← this]
        exact nodup_indexOf_getElem hnd hnn
      have hpeq : p = (p.1, p.2) := rfl
      have := applyEntries_mem (wireNames fields) entries
        (List.replicate fields.length Option.none) n p.1 p.2
        (hpeq ▸ hp) hidxp (by simp [hn]) hidxnodup
      rw [this, hrhs, hpv]
      simp [hsk2]
  · have h1 : (applyEntries (wireNames fields)
        (List.replicate fields.length Option.none) entries)[n]? = none := by
      apply List.getElem?_eq_none
      rw [hlhslen]
      omega
    have h2 : (fields.map (fun f =>
        if f.skipDeserializing then (Option.none : Option V)
        else Option.some (v f.wireName)))[n]? = none := by
      apply List.getElem?_eq_none
      rw [List.length_map]
      omega
    rw [h1, h2]

/-- Zipping a list with its own image under a function pairs every element
with its image. -/
theorem zip_map_self {V : Type} (g : Field → Option V) :
    ∀ (l : List Field), l.zip (l.map g) = l.map (fun f => (f, g f))
  | [] => rfl
  | f :: fs => by simp [zip_map_self g fs]

/-- Extraction is the identity on a slot list where every participating slot
is already filled. -/
theorem extract_resolved {V : Type} (env : RunEnv V) (v : String → V) :
    ∀ (l : List Field),
      extractValues env (l.map (fun f =>
        (f, if f.skipDeserializing then (Option.none : Option V)
            else Option.some (v f.wireName)))) =
      Except.ok (l.map (fun f =>
        (f, if f.skipDeserializing then (Option.none : Option V)
            else Option.some (v f.wireName))))
  | [] => rfl
  | f :: fs => by
    by_cases hsk : f.skipDeserializing <;>
      simp [extractValues, hsk, extract_resolved env v fs]

/-- Construction passes each filled slot through and resolves each skipped
field by its missing-value expression. -/
theorem construct_resolved {V : Type} (env : RunEnv V) (v : String → V)
    (w : Field → V) :
    ∀ (l : List Field),
      (∀ f ∈ l, f.skipDeserializing = true → evalMissing env f = Except.ok (w f)) →
      constructValues env (l.map (fun f =>
        (f, if f.skipDeserializing then (Option.none : Option V)
            else Option.some (v f.wireName)))) =
      Except.ok (l.map (fun f => if f.skipDeserializing then w f else v f.wireName))
  | [] => by
    intro _
    rfl
  | f :: fs => by
    intro hskip
    have hih := construct_resolved env v w fs
      (fun g hg => hskip g (List.mem_cons_of_mem f hg))
    by_cases hsk : f.skipDeserializing
    · have hm := hskip f (List.mem_cons_self f fs) hsk
      simp [constructValues, hsk, hm, hih]
    · simp [constructValues, hsk, hih]

/-- A skipped field whose wire name shadows a later participating field. -/
def fShadowSkip : Field :=
  ⟨"a", "x", "T", true, Option.none, FieldDefault.default, Option.none⟩

/-- A participating field whose wire name is shadowed by an earlier skipped
field. -/
def fShadowed : Field :=
  ⟨"b", "x", "T", false, Option.none, FieldDefault.none, Option.none⟩

/-- Counterexample for C1: the claim only requires the participating fields'
wire names to be pairwise distinct, which holds here (the single participating
field `b`); yet supplying `b`'s wire name `x` with value 42 does not store 42
into `b`'s slot, because the earlier skipped field `a` carries the same wire
name, wins the first-match decode, and its arm discards the value — the final
construction gives `b` the recovery value 0 instead of the supplied 42. -/
theorem keyed_assembly_counterexample :
    (wireNames (pFields [fShadowSkip, fShadowed])).Nodup ∧
    visitMap env0 [fShadowSkip, fShadowed] false [("x", 42)] = Except.ok [0, 0] ∧
    visitMap env0 [fShadowSkip, fShadowed] false [("x", 42)] ≠ Except.ok [0, 42] := by
  have h2 : visitMap env0 [fShadowSkip, fShadowed] false [("x", 42)] = Except.ok [0, 0] := rfl
  refine ⟨by decide, h2, ?_⟩
  rw [h2]
  intro hc
  have h3 := Except.ok.inj hc
  simp at h3

/-- C1 (amended): for a struct all of whose declared fields — skipped fields
included — have pairwise-distinct wire names, keyed assembly is order
independent: whenever the entries supply exactly the participating wire names,
each with the value assigned to that name, in any order, the result is the
construction that passes each supplied value to the field whose wire name
matched and fills each skipped field from its resolved default. -/
theorem keyed_assembly_order_independent {V : Type} (env : RunEnv V)
    (fields : List Field) (deny : Bool) (v : String → V) (w : Field → V)
    (entries : List (String × V))
    (hnd : (wireNames fields).Nodup)
    (hkeys : (entries.map Prod.fst).Perm (wireNames (pFields fields)))
    (hvals : ∀ p ∈ entries, p.2 = v p.1)
    (hskip : ∀ f ∈ fields, f.skipDeserializing = true →
      evalMissing env f = Except.ok (w f))
    (hend : env.mapEnd [] = Except.ok ()) :
    visitMap env fields deny entries =
      Except.ok (fields.map (fun f =>
        if f.skipDeserializing then w f else v f.wireName)) := by
  have hpnodup : (wireNames (pFields fields)).Nodup :=
    ((List.filter_sublist fields).map Field.wireName).nodup hnd
  have hknodup : (entries.map Prod.fst).Nodup := (hkeys.symm).nodup hpnodup
  by_cases hfe : fields = []
  · subst hfe
    have hent : entries = [] := by
      have h0 : entries.map Prod.fst = [] := hkeys.eq_nil
      exact List.map_eq_nil_iff.mp h0
    subst hent
    cases deny
    · simp [visitMap, mapLoop, hend, extractValues, constructValues]
    · simp [visitMap, hend]
  · have hne : fields.isEmpty = false := by
      cases fields
      · exact absurd rfl hfe
      · rfl
    have hksub : ∀ p ∈ entries, p.1 ∈ wireNames (pFields fields) :=
      fun p hp => (hkeys.mem_iff).mp (List.mem_map_of_mem Prod.fst hp)
    have hloop := mapLoop_resolves env fields deny hnd entries
      (List.replicate fields.length Option.none)
      (by simp)
      hksub
      hknodup
      (fun p hp => List.getElem?_replicate_of_lt (key_target hnd (hksub p hp)).2.1)
    have hfinal := final_slots fields v entries hnd hkeys hvals
    have hext := extract_resolved env v fields
    have hcon := construct_resolved env v w fields hskip
    simp only [visitMap, hne]
    try dsimp only
    rw [hloop, hfinal]
    try dsimp only
    rw [hend]
    try dsimp only
    rw [zip_map_self, hext]
    try dsimp only
    exact hcon

/-- Values of the Point round-trip keyed by wire name. -/
def vPoint : String → Nat := fun k => if k = "x" then 3 else 4

/-- Witness for the amended C1 at the spec's Point scenario with the keys in
reversed order. -/
theorem keyed_assembly_order_independent_witness :
    visitMap env0 seqFields false [("y", 4), ("x", 3)] = Except.ok [3, 4] :=
  keyed_assembly_order_independent env0 seqFields false vPoint wZero
    [("y", 4), ("x", 3)] (by decide) (List.Perm.swap "x" "y" []) (by decide)
    (by intro f hf hs; fin_cases hf <;> exact absurd hs (by decide)) rfl

end SerdeDe
